import Mathlib

/-!
Formal model of the Smart Vault CCTV face-recognition core
(`src/face_utils.py`, `src/search_index.py`, `src/main.py`,
`src/unknown_handler.py`, `src/db_connection.py`).

Floating-point numbers are idealized as real numbers; embedding vectors
are lists of reals.  Numpy exceptions that the Python code catches are
modelled by the corresponding early-return branches; the guard of each
branch states exactly the condition under which the numpy computation
raises.  The MongoDB layer used by the review queue stores embeddings
opaquely, so that part of the model uses rational coordinates to keep
the state machine decidable.
-/

noncomputable section

open scoped Classical

/-! ## Configuration constants (`src/config.py`, default values) -/

namespace Config

/-- `MATCH_THRESHOLD` (config.py line 43, default 0.40). -/
def MATCH_THRESHOLD : ℝ := 2 / 5

/-- `MULTIFRAME_COUNT` (config.py line 55, default 3). -/
def MULTIFRAME_COUNT : ℕ := 3

/-- `ADAPTIVE_ALPHA` (config.py line 104). -/
def ADAPTIVE_ALPHA : ℝ := 1 / 10

/-- `ADAPTIVE_UPDATE_FREQUENCY` (config.py line 107). -/
def ADAPTIVE_UPDATE_FREQUENCY : ℕ := 10

/-- `ENABLE_ADAPTIVE_UPDATE` (config.py line 100). -/
def ENABLE_ADAPTIVE_UPDATE : Bool := true

end Config

/-! ## Vector math primitives (`src/face_utils.py`, class `FaceUtils`) -/

namespace FaceUtils

/-- Dot product of two real vectors; coordinates beyond the shorter
vector are ignored, matching `np.dot` only when lengths agree (the
callers below guard lengths explicitly). -/
def dot : List ℝ → List ℝ → ℝ
  | a :: as, b :: bs => a * b + dot as bs
  | _, _ => 0

/-- Euclidean norm `np.linalg.norm(v)`. -/
def norm (v : List ℝ) : ℝ := Real.sqrt (dot v v)

/-- `FaceUtils._normalize_embedding` (face_utils.py lines 205-218):
returns `v` unchanged when its norm is zero, else `v / ‖v‖`. -/
def normalizeEmbedding (v : List ℝ) : List ℝ :=
  if norm v = 0 then v else v.map (· / norm v)

/-- `np.clip(x, 0.0, 1.0)`. -/
def clip01 (x : ℝ) : ℝ := min (max x 0) 1

/-- `FaceUtils.cosine_similarity` (face_utils.py lines 220-250):
normalizes both inputs (with the zero-norm guard), takes the dot
product and clips the result into `[0, 1]`. -/
def cosine_similarity (a b : List ℝ) : ℝ :=
  clip01 (dot (normalizeEmbedding a) (normalizeEmbedding b))

/-- `FaceUtils.batch_compare` (face_utils.py lines 271-299).
`np.array(database_embeddings)` followed by `np.dot(db_matrix, query)`
raises unless every row has the query's length; the surrounding
`except` then returns `[0.0] * len(database_embeddings)`.  On the
success path each row is divided by its own norm with no zero guard
(`db_matrix / np.linalg.norm(db_matrix, axis=1, keepdims=True)`), the
query is normalized with the guarded helper, and the scores are the
row-by-row dot products.  No clipping is applied on this path. -/
def batch_compare (query : List ℝ) (db : List (List ℝ)) : List ℝ :=
  if ∀ c ∈ db, c.length = query.length then
    db.map (fun c => dot (c.map (· / norm c)) (normalizeEmbedding query))
  else
    List.replicate db.length 0

end FaceUtils

/-! ## Similarity index (`src/search_index.py`, class `FaissSearchIndex`) -/

namespace SearchIndex

/-- Index metric: `faiss.IndexFlatL2` vs `faiss.IndexFlatIP`
(`index_type` argument of `build_index`). -/
inductive IndexKind
  | L2
  | IP
  deriving DecidableEq

/-- State of a `FaissSearchIndex` object: `self.dimension`,
`self.names`, `self.embeddings` and `self.index`/`self.is_trained`.
The faiss index object is modelled by the metric together with the
vectors that were added to it at build time (`self.index` holds its own
copy of the embedding matrix, which can diverge from `self.embeddings`
when a later mutation fails mid-way). -/
structure FaissState where
  dimension : ℕ
  names : List String
  embeddings : List (List ℝ)
  indexVecs : Option (IndexKind × List (List ℝ))
  isTrained : Bool

/-- `FaissSearchIndex.__init__` (search_index.py lines 30-46). -/
def initState (dimension : ℕ) : FaissState :=
  { dimension := dimension
    names := []
    embeddings := []
    indexVecs := none
    isTrained := false }

/-- Rows of a matrix all have the given length (`np.array(embeddings)`
yields a rectangular 2-d array exactly when this holds for the common
row length). -/
def homogeneous (embs : List (List ℝ)) (d : ℕ) : Prop :=
  ∀ v ∈ embs, v.length = d

instance (embs : List (List ℝ)) (d : ℕ) : Decidable (homogeneous embs d) := by
  unfold homogeneous; infer_instance

/-- Row length of the first row, the `shape[1]` of the rectangular
matrix built from a non-empty homogeneous list. -/
def headLen (embs : List (List ℝ)) : ℕ := (embs.headD []).length

/-- `faiss.normalize_L2` on one row: unguarded division by the norm. -/
def faissNormalizeRow (v : List ℝ) : List ℝ := v.map (· / FaceUtils.norm v)

/-- `FaissSearchIndex.build_index` (search_index.py lines 48-100).
Checks, in source order: the embeddings/names length mismatch raised as
`ValueError`, the empty-input early `return False`, and the
`np.array(embeddings)` call which raises on ragged input — each of
those paths is caught and leaves the state untouched.  Otherwise the
configured dimension is overwritten by the matrix's `shape[1]` (the
code only logs a warning on mismatch), the matrix is normalized first
when the metric is `IP`, a fresh flat index is created and filled, and
names/embeddings/is_trained are replaced.  Returns the new state and
the boolean result. -/
def build_index (st : FaissState) (embeddings : List (List ℝ))
    (names : List String) (kind : IndexKind) : FaissState × Bool :=
  if embeddings.length ≠ names.length then (st, false)
  else if embeddings = [] then (st, false)
  else if ¬ homogeneous embeddings (headLen embeddings) then (st, false)
  else
    let d := headLen embeddings
    let stored := if kind = IndexKind.IP
      then embeddings.map faissNormalizeRow else embeddings
    ({ dimension := d
       names := names
       embeddings := stored
       indexVecs := some (kind, stored)
       isTrained := true }, true)

/-- Squared Euclidean distance between two rows — `IndexFlatL2` search
returns squared L2 distances. -/
def sqDist (a b : List ℝ) : ℝ :=
  FaceUtils.dot (List.zipWith (· - ·) a b) (List.zipWith (· - ·) a b)

/-- Raw score the faiss backend reports for one stored row against the
(already prepared) query: squared distance for `L2`, inner product for
`IP`. -/
def rawScore (kind : IndexKind) (row q : List ℝ) : ℝ :=
  match kind with
  | IndexKind.L2 => sqDist row q
  | IndexKind.IP => FaceUtils.dot row q

/-- Preference order in which the faiss backend returns hits: ascending
squared distance for `L2`, descending inner product for `IP`. -/
def pref (kind : IndexKind) (a b : ℕ × ℝ) : Prop :=
  match kind with
  | IndexKind.L2 => a.2 ≤ b.2
  | IndexKind.IP => b.2 ≤ a.2

instance (kind : IndexKind) : IsTotal (ℕ × ℝ) (pref kind) where
  total a b := by cases kind <;> exact le_total _ _

instance (kind : IndexKind) : IsTrans (ℕ × ℝ) (pref kind) where
  trans a b c h1 h2 := by
    cases kind
    · exact le_trans h1 h2
    · exact le_trans h2 h1

/-- Conversion from the raw backend score to the similarity reported to
callers (search_index.py lines 134-140): the inner product is already a
similarity; a squared L2 distance `d` becomes `np.exp(-d / 10)`. -/
def convertScore (kind : IndexKind) (s : ℝ) : ℝ :=
  match kind with
  | IndexKind.L2 => Real.exp (-(s / 10))
  | IndexKind.IP => s

/-- `FaissSearchIndex.query_index` (search_index.py lines 102-148).
Returns `[]` when the index is untrained or absent, and on the faiss
dimension-mismatch assertion (caught by the `except`).  Otherwise `k`
is clamped to `len(self.names)`, the faiss search ranks all stored rows
by the backend's preference order (for `IP` the query is normalized
first), indices out of range of `self.names` are dropped, and each
surviving hit is reported as `(self.names[idx], similarity)`. -/
def query_index (st : FaissState) (q : List ℝ) (k : ℕ) :
    List (String × ℝ) :=
  if st.isTrained = false then []
  else
    match st.indexVecs with
    | none => []
    | some (kind, vecs) =>
      if q.length ≠ st.dimension then []
      else
        let q' := if kind = IndexKind.IP then faissNormalizeRow q else q
        let scored := vecs.enum.map (fun p => (p.1, rawScore kind p.2 q'))
        let ranked := List.insertionSort (pref kind) scored
        let k' := min k st.names.length
        ((ranked.take k').filter (fun p => p.1 < st.names.length)).map
          (fun p => (st.names.getD p.1 "", convertScore kind p.2))

/-- `FaissSearchIndex.add_face` (search_index.py lines 179-201).
`self.names.append(name)` mutates the name list before the rebuild, so
a failing rebuild leaves the appended name behind. -/
def add_face (st : FaissState) (name : String) (v : List ℝ) :
    FaissState × Bool :=
  let stPre := { st with names := st.names ++ [name] }
  build_index stPre (st.embeddings ++ [v]) stPre.names IndexKind.L2

/-- `FaissSearchIndex.update_embedding` (search_index.py lines 150-177).
`self.embeddings[idx] = new_embedding` assigns into the stored numpy
matrix before the rebuild: the assignment raises (caught, `False`,
state unchanged) when `idx` is out of range or the length does not
broadcast, broadcasts a length-1 vector across the row, and otherwise
replaces the row — and a subsequently failing rebuild leaves that
mutated matrix behind. -/
def update_embedding (st : FaissState) (name : String) (v : List ℝ) :
    FaissState × Bool :=
  if name ∉ st.names then (st, false)
  else if st.names.indexOf name < st.embeddings.length then
    (if v.length = (st.embeddings.getD (st.names.indexOf name) []).length
     then
      build_index
        { st with embeddings :=
            st.embeddings.set (st.names.indexOf name) v }
        (st.embeddings.set (st.names.indexOf name) v) st.names
        IndexKind.L2
     else if v.length = 1 then
      build_index
        { st with embeddings := st.embeddings.set (st.names.indexOf name) (List.replicate (st.embeddings.getD (st.names.indexOf name) []).length (v.headD 0)) }
        (st.embeddings.set (st.names.indexOf name)
          (List.replicate
            (st.embeddings.getD (st.names.indexOf name) []).length
            (v.headD 0))) st.names IndexKind.L2
     else (st, false))
  else (st, false)

/-- `FaissSearchIndex.remove_face` (search_index.py lines 203-233).
`self.names.pop(idx)` mutates the name list before `np.delete`, which
raises (caught, `False`) when `idx` is out of range of the stored
matrix.  When the last name is removed the index is dropped and
`is_trained` cleared but `self.embeddings` keeps the stale matrix. -/
def remove_face (st : FaissState) (name : String) : FaissState × Bool :=
  if name ∉ st.names then (st, false)
  else if st.names.indexOf name < st.embeddings.length then
    (if st.names.eraseIdx (st.names.indexOf name) ≠ [] then
      build_index
        { st with names := st.names.eraseIdx (st.names.indexOf name) }
        (st.embeddings.eraseIdx (st.names.indexOf name))
        (st.names.eraseIdx (st.names.indexOf name)) IndexKind.L2
     else
      ({ st with
          names := st.names.eraseIdx (st.names.indexOf name)
          indexVecs := none
          isTrained := false }, true))
  else ({ st with names := st.names.eraseIdx (st.names.indexOf name) },
    false)

/-- One mutation of the maintained index (spec §4.2 `insert` /
`update` / `remove`). -/
inductive IndexOp
  | add (name : String) (v : List ℝ)
  | update (name : String) (v : List ℝ)
  | remove (name : String)

/-- Apply one mutation. -/
def applyOp (st : FaissState) : IndexOp → FaissState × Bool
  | IndexOp.add name v => add_face st name v
  | IndexOp.update name v => update_embedding st name v
  | IndexOp.remove name => remove_face st name

/-- Apply a sequence of mutations, keeping only the states. -/
def applyOps (st : FaissState) : List IndexOp → FaissState
  | [] => st
  | op :: rest => applyOps (applyOp st op).1 rest

/-- Every mutation in the sequence reports success. -/
def allSucceed (st : FaissState) : List IndexOp → Prop
  | [] => True
  | op :: rest =>
      (applyOp st op).2 = true ∧ allSucceed (applyOp st op).1 rest

/-- The logical entry set of the maintained index: the association of
each name with its stored vector. -/
def logicalEntries (st : FaissState) : List (String × List ℝ) :=
  st.names.zip st.embeddings

/-- Query results of a freshly built index over the current logical
entry set, with the default `L2` metric used by all mutations. -/
def freshQuery (st : FaissState) (q : List ℝ) (k : ℕ) :
    List (String × ℝ) :=
  query_index
    (build_index (initState st.dimension)
      ((logicalEntries st).map Prod.snd)
      ((logicalEntries st).map Prod.fst) IndexKind.L2).1 q k

/-- A state the mutation API can leave behind when every call so far
reported success: either the index was never (re)built and is empty, or
it is exactly the result of a successful `L2` build of its own
names/embeddings lists. -/
def goodState (st : FaissState) : Prop :=
  st.isTrained = true ∧
  st.indexVecs = some (IndexKind.L2, st.embeddings) ∧
  st.names.length = st.embeddings.length ∧
  homogeneous st.embeddings st.dimension ∧
  st.embeddings ≠ []

/-- Either an empty untrained state or a fully synced one. -/
def stableState (st : FaissState) : Prop :=
  (st.isTrained = false ∧ st.names = []) ∨ goodState st

end SearchIndex

/-! ## Recognition pipeline (`src/main.py`, class `FaceRecognitionSystem`) -/

namespace Main

/-- One iteration of the linear scan in
`FaceRecognitionSystem.recognize_face` (main.py lines 176-182): track
the best similarity seen so far, recording the candidate's name only
when the improved similarity clears the match threshold. -/
def recogStep (M : ℝ) (emb : List ℝ) (acc : Option String × ℝ)
    (p : String × List ℝ) : Option String × ℝ :=
  let s := FaceUtils.cosine_similarity emb p.2
  if acc.2 < s then
    (if M ≤ s then some p.1 else acc.1, s)
  else acc

/-- `FaceRecognitionSystem.recognize_face` (main.py lines 151-190).
The authorized cache is a dict iterated in insertion order, modelled as
an association list.  With faiss enabled the top-1 index hit is
thresholded; otherwise a linear scan folds `recogStep` over the cache.
An untrained faiss index yields no results and the function falls
through to `(None, 0.0)`. -/
def recognize_face (M : ℝ) (useFaiss : Bool)
    (searchIndex : SearchIndex.FaissState)
    (cache : List (String × List ℝ)) (emb : List ℝ) :
    Option String × ℝ :=
  if cache = [] then (none, 0)
  else if useFaiss then
    match SearchIndex.query_index searchIndex emb 1 with
    | (name, similarity) :: _ =>
        if M ≤ similarity then (some name, similarity)
        else (none, similarity)
    | [] => (none, 0)
  else
    cache.foldl (recogStep M emb) (none, 0)

/-- Best similarity over the cache, the value `best_similarity` tracks
during the linear scan. -/
def bestSim (cache : List (String × List ℝ)) (emb : List ℝ) : ℝ :=
  cache.foldl (fun b p => max b (FaceUtils.cosine_similarity emb p.2)) 0

/-- Appending to a `deque(maxlen=W)`: the oldest entries are dropped
from the front once the capacity is exceeded (main.py lines 204-208). -/
def observeBuffer (W : ℕ) (buf : List (List ℝ)) (v : List ℝ) :
    List (List ℝ) :=
  let b := buf ++ [v]
  if W < b.length then b.drop (b.length - W) else b

/-- Componentwise sum of a stack of vectors (`np.mean(..., axis=0)`
numerator); the callers keep the stack homogeneous. -/
def sumVecs : List (List ℝ) → List ℝ
  | [] => []
  | [v] => v
  | v :: rest => List.zipWith (· + ·) v (sumVecs rest)

/-- `np.mean(list(buffer), axis=0)`. -/
def meanVec (bufs : List (List ℝ)) : List ℝ :=
  (sumVecs bufs).map (· / (bufs.length : ℝ))

/-- The temporal-aggregation core of
`FaceRecognitionSystem.multi_frame_recognize` (main.py lines 203-212):
append the new embedding to the tracked face's bounded buffer, average
the buffered embeddings and renormalize with an unguarded division by
the norm.  Returns the new buffer and the smoothed query vector that is
then passed to `recognize_face`. -/
def multiFrameSmooth (W : ℕ) (buf : List (List ℝ)) (emb : List ℝ) :
    List (List ℝ) × List ℝ :=
  let buf' := observeBuffer W buf emb
  let avg := meanVec buf'
  (buf', avg.map (· / FaceUtils.norm avg))

/-- Repeated observation of the same tracked face, starting from a
buffer state and returning the buffer and last smoothed vector. -/
def smoothIter (W : ℕ) (buf : List (List ℝ)) (smoothed : List ℝ) :
    List (List ℝ) → List (List ℝ) × List ℝ
  | [] => (buf, smoothed)
  | v :: vs =>
      let r := multiFrameSmooth W buf v
      smoothIter W r.1 r.2 vs

/-- Mutable state touched by
`FaceRecognitionSystem.update_adaptive_embedding`: the per-identity
recognition counters, the in-memory authorized cache, the persistent
store's embedding column, and the faiss index. -/
structure AdaptState where
  counts : String → ℕ
  cache : String → Option (List ℝ)
  db : String → Option (List ℝ)
  index : SearchIndex.FaissState
  useFaiss : Bool

/-- The blended vector `old * (1 - α) + observed * α` (main.py line
237). -/
def blend (alpha : ℝ) (old e : List ℝ) : List ℝ :=
  List.zipWith (fun a b => a * (1 - alpha) + b * alpha) old e

/-- The unguarded renormalization `v / np.linalg.norm(v)` used at
main.py line 238. -/
def normalizeNoGuard (v : List ℝ) : List ℝ :=
  v.map (· / FaceUtils.norm v)

/-- `FaceRecognitionSystem.update_adaptive_embedding` (main.py lines
217-253).  Nothing happens when adaptive updates are disabled.  The
recognition counter is incremented first; when the new count is not a
multiple of `F` that is the only effect.  Otherwise the cached vector
is blended with the observation and renormalized (unguarded division);
a missing cache entry or a length mismatch raises inside the `try`, so
only the counter increment survives.  On success the cache is replaced,
`DB.update_authorized_embedding` overwrites the persistent embedding
when the document exists (db_connection.py lines 198-222, a missing
document only logs a warning), and with faiss in use the index's
`update_embedding` is invoked. -/
def update_adaptive_embedding (enabled : Bool) (F : ℕ) (alpha : ℝ)
    (st : AdaptState) (name : String) (e : List ℝ) : AdaptState :=
  if enabled = false then st
  else
    let c := st.counts name + 1
    let counts' := fun n => if n = name then c else st.counts n
    if c % F ≠ 0 then { st with counts := counts' }
    else
      match st.cache name with
      | none => { st with counts := counts' }
      | some old =>
        if old.length = e.length then
          let u := normalizeNoGuard (blend alpha old e)
          { counts := counts'
            cache := fun n => if n = name then some u else st.cache n
            db := fun n =>
              if n = name ∧ (st.db n).isSome then some u else st.db n
            index := if st.useFaiss then
                (SearchIndex.update_embedding st.index name u).1
              else st.index
            useFaiss := st.useFaiss }
        else { st with counts := counts' }

end Main

end

/-! ## Review queue (`src/unknown_handler.py` and `src/db_connection.py`)

The embeddings handled here are stored and copied opaquely, never
computed with, so this part of the model uses rational coordinates and
stays decidable. -/

namespace Vault

/-- A document of the authorized-faces collection
(db_connection.py `add_authorized_face`): name (unique), embedding,
GridFS image id.  The Mongo `_id` is modelled by `docId`. -/
structure AuthDoc where
  docId : ℕ
  name : String
  embedding : List ℚ
  imageId : ℕ
  deriving DecidableEq

/-- A detection-log document (db_connection.py `save_detection_log`)
restricted to the fields the review workflow reads and writes. -/
structure LogDoc where
  logId : ℕ
  embedding : List ℚ
  imageId : ℕ
  reviewFlag : Bool
  enrolledAs : Option String
  dismissed : Bool
  deriving DecidableEq

/-- The database state: authorized collection, detection logs, GridFS
blobs (id paired with the stored bytes), and the id allocator. -/
structure DBState where
  auth : List AuthDoc
  logs : List LogDoc
  images : List (ℕ × List ℕ)
  nextId : ℕ
  deriving DecidableEq

/-- `GridFS.put`: store the bytes under a fresh id. -/
def fsPut (db : DBState) (bytes : List ℕ) : DBState × ℕ :=
  ({ db with images := db.images ++ [(db.nextId, bytes)],
             nextId := db.nextId + 1 }, db.nextId)

/-- `DB.get_image` (db_connection.py lines 317-334): the stored bytes,
or `none` when the id is unknown. -/
def get_image (db : DBState) (imageId : ℕ) : Option (List ℕ) :=
  (db.images.find? (fun p => p.1 = imageId)).map Prod.snd

/-- `DB.add_authorized_face` (db_connection.py lines 88-153): store the
image, then update the matching document in place when the name already
exists (keeping its `_id`), otherwise insert a new document.  Returns
the new state and the document id. -/
def add_authorized_face (db : DBState) (name : String)
    (embedding : List ℚ) (bytes : List ℕ) : DBState × ℕ :=
  let put := fsPut db bytes
  let db1 := put.1
  let imageId := put.2
  match db1.auth.find? (fun d => d.name = name) with
  | some existing =>
      ({ db1 with auth := db1.auth.map (fun d =>
          if d.name = name then
            { d with embedding := embedding, imageId := imageId }
          else d) }, existing.docId)
  | none =>
      ({ db1 with
          auth := db1.auth ++
            [{ docId := db1.nextId
               name := name
               embedding := embedding
               imageId := imageId }]
          nextId := db1.nextId + 1 }, db1.nextId)

/-- Look up a detection log by id (`logs_coll.find_one({'_id': ...})`). -/
def findLog (db : DBState) (logId : ℕ) : Option LogDoc :=
  db.logs.find? (fun l => l.logId = logId)

/-- `UnknownFaceHandler.enroll_unknown_as_authorized`
(unknown_handler.py lines 70-120): fails only when the log is missing
or its image cannot be fetched (an empty byte string is falsy and also
fails); otherwise the embedding and image are written through
`add_authorized_face` — regardless of the log's current review state or
of an existing identity under the same name — and the log is marked
`review_flag = False, enrolled_as = name`. -/
def enroll_unknown_as_authorized (db : DBState) (logId : ℕ)
    (name : String) : DBState × Bool :=
  match findLog db logId with
  | none => (db, false)
  | some log =>
      match get_image db log.imageId with
      | none => (db, false)
      | some bytes =>
          if bytes = [] then (db, false)
          else
            let db1 := (add_authorized_face db name log.embedding bytes).1
            ({ db1 with logs := db1.logs.map (fun l =>
                if l.logId = logId then
                  { l with reviewFlag := false, enrolledAs := some name }
                else l) }, true)

/-- `UnknownFaceHandler.dismiss_unknown` (unknown_handler.py lines
122-153): succeeds whenever the log exists (the update always modifies
the freshly stamped `dismissed_at` field), regardless of its current
review state. -/
def dismiss_unknown (db : DBState) (logId : ℕ) : DBState × Bool :=
  match findLog db logId with
  | none => (db, false)
  | some _ =>
      ({ db with logs := db.logs.map (fun l =>
          if l.logId = logId then
            { l with reviewFlag := false, dismissed := true }
          else l) }, true)

/-- Concrete database used to exercise the enrollment workflow: one
enrolled identity `alice` with embedding `[1]`, and one unreviewed
detection (log id 1) with a different embedding `[2]` and a stored
image. -/
def sampleDB : DBState :=
  { auth := [{ docId := 0, name := "alice", embedding := [1], imageId := 7 }]
    logs := [{ logId := 1
               embedding := [2]
               imageId := 8
               reviewFlag := true
               enrolledAs := none
               dismissed := false }]
    images := [(7, [9]), (8, [5])]
    nextId := 100 }

end Vault

/-! ## Vector-math lemmas -/

open scoped Classical

namespace FaceUtils

@[simp]
theorem dot_nil_left (b : List ℝ) : dot [] b = 0 := by
  cases b <;> rfl

@[simp]
theorem dot_nil_right (a : List ℝ) : dot a [] = 0 := by
  cases a <;> rfl

@[simp]
theorem dot_cons (a b : ℝ) (as bs : List ℝ) :
    dot (a :: as) (b :: bs) = a * b + dot as bs := rfl

theorem dot_comm : ∀ a b : List ℝ, dot a b = dot b a
  | [], b => by simp
  | a :: as, [] => by simp
  | a :: as, b :: bs => by
      simp [dot_comm as bs, mul_comm]

theorem dot_self_nonneg : ∀ v : List ℝ, 0 ≤ dot v v
  | [] => le_refl 0
  | a :: as => by
      have h := dot_self_nonneg as
      simpa using add_nonneg (mul_self_nonneg a) h

theorem dot_map_div_left (c : ℝ) :
    ∀ v w : List ℝ, dot (v.map (· / c)) w = dot v w / c
  | [], w => by simp
  | a :: as, [] => by simp
  | a :: as, b :: bs => by
      simp [dot_map_div_left c as bs, add_div, div_mul_eq_mul_div]

theorem dot_map_div_right (c : ℝ) (v w : List ℝ) :
    dot v (w.map (· / c)) = dot v w / c := by
  rw [dot_comm, dot_map_div_left, dot_comm]

/-- Cauchy-Schwarz for the list dot product. -/
theorem dot_sq_le : ∀ a b : List ℝ, (dot a b) ^ 2 ≤ dot a a * dot b b
  | [], b => by simp
  | a :: as, [] => by simp
  | a :: as, b :: bs => by
      have ih := dot_sq_le as bs
      have hA := dot_self_nonneg as
      have hB := dot_self_nonneg bs
      simp only [dot_cons]
      by_cases hB0 : dot bs bs = 0
      · have hD2 : dot as bs ^ 2 ≤ 0 := by
          calc dot as bs ^ 2 ≤ dot as as * dot bs bs := ih
          _ = 0 := by rw [hB0, mul_zero]
        have hD : dot as bs = 0 := by
          have h0 : dot as bs ^ 2 = 0 := le_antisymm hD2 (sq_nonneg _)
          exact pow_eq_zero_iff (two_ne_zero) |>.mp h0
        rw [hB0, hD]
        nlinarith [mul_nonneg hA (sq_nonneg b)]
      · have hBpos : 0 < dot bs bs := lt_of_le_of_ne hB (Ne.symm hB0)
        nlinarith [sq_nonneg (a * dot bs bs - b * dot as bs),
          mul_nonneg hB (sub_nonneg.mpr ih),
          mul_nonneg (sq_nonneg b) (sub_nonneg.mpr ih)]

theorem norm_sq (v : List ℝ) : norm v ^ 2 = dot v v :=
  Real.sq_sqrt (dot_self_nonneg v)

theorem norm_nonneg' (v : List ℝ) : 0 ≤ norm v := Real.sqrt_nonneg _

theorem norm_eq_zero_iff (v : List ℝ) : norm v = 0 ↔ dot v v = 0 :=
  Real.sqrt_eq_zero (dot_self_nonneg v)

theorem dot_left_eq_zero_of_self (v w : List ℝ) (h : dot v v = 0) :
    dot v w = 0 := by
  have hcs := dot_sq_le v w
  rw [h, zero_mul] at hcs
  have h0 : dot v w ^ 2 = 0 := le_antisymm hcs (sq_nonneg _)
  exact pow_eq_zero_iff (two_ne_zero) |>.mp h0

theorem dot_map_div_norm_self (v : List ℝ) (h : norm v ≠ 0) :
    dot (v.map (· / norm v)) (v.map (· / norm v)) = 1 := by
  rw [dot_map_div_left, dot_map_div_right, div_div, ← norm_sq v, sq]
  exact div_self (mul_ne_zero h h)

theorem norm_map_div_norm (v : List ℝ) (h : norm v ≠ 0) :
    norm (v.map (· / norm v)) = 1 := by
  rw [norm, dot_map_div_norm_self v h, Real.sqrt_one]

theorem normalizeEmbedding_of_ne (v : List ℝ) (h : norm v ≠ 0) :
    normalizeEmbedding v = v.map (· / norm v) := by
  rw [normalizeEmbedding, if_neg h]

theorem normalizeEmbedding_of_zero (v : List ℝ) (h : norm v = 0) :
    normalizeEmbedding v = v := by
  rw [normalizeEmbedding, if_pos h]

theorem dot_normalize_self_le_one (v : List ℝ) :
    dot (normalizeEmbedding v) (normalizeEmbedding v) ≤ 1 := by
  by_cases h : norm v = 0
  · rw [normalizeEmbedding_of_zero v h,
      (norm_eq_zero_iff v).mp h]
    norm_num
  · rw [normalizeEmbedding_of_ne v h, dot_map_div_norm_self v h]

theorem dot_normalize_self_nonneg (v : List ℝ) :
    0 ≤ dot (normalizeEmbedding v) (normalizeEmbedding v) :=
  dot_self_nonneg _

/-- Shared evaluation fact: the norm of a one-hot vector. -/
theorem norm_one_zero : norm [(1 : ℝ), 0] = 1 := by
  have hd : dot [(1 : ℝ), 0] [(1 : ℝ), 0] = 1 := by norm_num
  rw [norm, hd, Real.sqrt_one]

/-- Shared evaluation fact: the normalization of a one-hot vector. -/
theorem normalize_one_zero : normalizeEmbedding [(1 : ℝ), 0] = [1, 0] := by
  rw [normalizeEmbedding_of_ne _ (by rw [norm_one_zero]; norm_num),
    norm_one_zero]
  norm_num

theorem norm_zero_one : norm [(0 : ℝ), 1] = 1 := by
  have hd : dot [(0 : ℝ), 1] [(0 : ℝ), 1] = 1 := by norm_num
  rw [norm, hd, Real.sqrt_one]

theorem norm_neg_single : norm [(-1 : ℝ)] = 1 := by
  have hd : dot [(-1 : ℝ)] [(-1 : ℝ)] = 1 := by norm_num
  rw [norm, hd, Real.sqrt_one]

theorem norm_pos_single : norm [(1 : ℝ)] = 1 := by
  have hd : dot [(1 : ℝ)] [(1 : ℝ)] = 1 := by norm_num
  rw [norm, hd, Real.sqrt_one]

end FaceUtils

/-! ## C1: `batch_compare` versus pairwise `cosine_similarity` -/

/-- C1 counterexample: the claim "`batch_compare(q, [c1..cn])[i]` equals
`cosineSimilarity(q, ci)` for all `i`" fails at `q = [1]`,
`c1 = [-1]`: `cosine_similarity` clips the score into `[0, 1]` and
returns `0`, while `batch_compare` applies no clipping and returns
`-1`. -/
theorem C1_counterexample :
    (FaceUtils.batch_compare [(1 : ℝ)] [[-1]]).getD 0 0 ≠
      FaceUtils.cosine_similarity [(1 : ℝ)] [-1] := by
  have hn1 : FaceUtils.normalizeEmbedding [(1 : ℝ)] = [1] := by
    rw [FaceUtils.normalizeEmbedding_of_ne _
      (by rw [FaceUtils.norm_pos_single]; norm_num),
      FaceUtils.norm_pos_single]
    norm_num
  have hn2 : FaceUtils.normalizeEmbedding [(-1 : ℝ)] = [-1] := by
    rw [FaceUtils.normalizeEmbedding_of_ne _
      (by rw [FaceUtils.norm_neg_single]; norm_num),
      FaceUtils.norm_neg_single]
    norm_num
  have hb : FaceUtils.batch_compare [(1 : ℝ)] [[-1]] = [-1] := by
    rw [FaceUtils.batch_compare, if_pos (by simp)]
    simp [FaceUtils.norm_neg_single, hn1]
  have hc : FaceUtils.cosine_similarity [(1 : ℝ)] [-1] = 0 := by
    rw [FaceUtils.cosine_similarity, hn1, hn2]
    norm_num [FaceUtils.clip01]
  rw [hb, hc]
  norm_num

/-- C1 (amended): on the success path (every candidate row has the
query's length) and for a candidate of nonzero norm, the `i`-th batch
score is the unclipped dot product of the two normalized vectors; it
agrees with `cosine_similarity(q, ci)` exactly when that dot product is
nonnegative (it can never exceed 1), so the claimed equality holds
whenever the pairwise similarity is not being clipped at zero. -/
theorem C1_amended (q : List ℝ) (db : List (List ℝ)) (i : ℕ)
    (hi : i < db.length)
    (hdim : ∀ c ∈ db, c.length = q.length)
    (hnz : FaceUtils.norm (db.getD i []) ≠ 0)
    (hpos : 0 ≤ FaceUtils.dot (FaceUtils.normalizeEmbedding q)
        (FaceUtils.normalizeEmbedding (db.getD i []))) :
    (FaceUtils.batch_compare q db).getD i 0 =
      FaceUtils.cosine_similarity q (db.getD i []) := by
  have hbc : (FaceUtils.batch_compare q db).getD i 0 =
      FaceUtils.dot
        ((db.getD i []).map (· / FaceUtils.norm (db.getD i [])))
        (FaceUtils.normalizeEmbedding q) := by
    rw [FaceUtils.batch_compare, if_pos hdim,
      List.getD_eq_getElem _ _ (by simpa using hi), List.getElem_map,
      List.getD_eq_getElem db [] hi]
  rw [hbc, FaceUtils.cosine_similarity,
    ← FaceUtils.normalizeEmbedding_of_ne _ hnz, FaceUtils.dot_comm]
  have hle : FaceUtils.dot (FaceUtils.normalizeEmbedding q)
      (FaceUtils.normalizeEmbedding (db.getD i [])) ≤ 1 := by
    have hcs := FaceUtils.dot_sq_le (FaceUtils.normalizeEmbedding q)
      (FaceUtils.normalizeEmbedding (db.getD i []))
    have h1 := FaceUtils.dot_normalize_self_le_one q
    have h2 := FaceUtils.dot_normalize_self_le_one (db.getD i [])
    have h3 := FaceUtils.dot_normalize_self_nonneg q
    have h4 := FaceUtils.dot_normalize_self_nonneg (db.getD i [])
    nlinarith
  rw [FaceUtils.clip01, max_eq_left hpos, min_eq_left hle]

/-- C1 witness: at `q = [1, 0]`, `db = [[1, 0]]`, `i = 0` all the
hypotheses of the amended claim hold and both sides evaluate to `1`. -/
theorem C1_witness :
    (0 < [[(1 : ℝ), 0]].length) ∧
    (FaceUtils.batch_compare [(1 : ℝ), 0] [[1, 0]]).getD 0 0 =
      FaceUtils.cosine_similarity [(1 : ℝ), 0] ([[(1 : ℝ), 0]].getD 0 []) := by
  refine ⟨by norm_num, ?_⟩
  have h := C1_amended [(1 : ℝ), 0] [[1, 0]] 0 (by norm_num)
    (by intro c hc; simp at hc; rw [hc])
    (by simp only [List.getD]; simp [FaceUtils.norm_one_zero])
    (by simp only [List.getD]; simp [FaceUtils.normalize_one_zero])
  simpa using h

/-! ## C10: `batch_compare` totality -/

/-- C10: `batch_compare` always returns exactly one score per
candidate; when the internal numpy computation would raise (some
candidate row does not have the query's length) the caught exception
produces a list of zeros of the same length instead of propagating. -/
theorem C10_batch_total (q : List ℝ) (db : List (List ℝ)) :
    (FaceUtils.batch_compare q db).length = db.length ∧
    (¬ (∀ c ∈ db, c.length = q.length) →
      FaceUtils.batch_compare q db = List.replicate db.length 0) := by
  constructor
  · rw [FaceUtils.batch_compare]
    split
    · simp
    · simp
  · intro h
    rw [FaceUtils.batch_compare, if_neg h]

/-- C10 witness: a ragged database of two rows yields exactly two
scores, both zero. -/
theorem C10_witness :
    (FaceUtils.batch_compare [(1 : ℝ)] [[2], [3, 4]]).length = 2 ∧
    FaceUtils.batch_compare [(1 : ℝ)] [[2], [3, 4]] = [0, 0] := by
  have h := C10_batch_total [(1 : ℝ)] [[2], [3, 4]]
  refine ⟨by simpa using h.1, ?_⟩
  have h2 := h.2 (by intro hall; have := hall [3, 4] (by simp); simp at this)
  simpa using h2


/-! ## C2: enrollment workflow lemmas -/

namespace Vault

theorem logs_after_add (db : DBState) (name : String) (emb : List ℚ)
    (bytes : List ℕ) :
    (add_authorized_face db name emb bytes).1.logs = db.logs := by
  simp only [add_authorized_face, fsPut]
  cases h : db.auth.find? (fun d => d.name = name) <;> simp [h]

theorem images_after_add (db : DBState) (name : String) (emb : List ℚ)
    (bytes : List ℕ) :
    (add_authorized_face db name emb bytes).1.images =
      db.images ++ [(db.nextId, bytes)] := by
  simp only [add_authorized_face, fsPut]
  cases h : db.auth.find? (fun d => d.name = name) <;> simp [h]

theorem auth_after_add (db : DBState) (name : String) (emb : List ℚ)
    (bytes : List ℕ) :
    ∀ d ∈ (add_authorized_face db name emb bytes).1.auth,
      d.name = name → d.embedding = emb := by
  simp only [add_authorized_face, fsPut]
  cases h : db.auth.find? (fun d => d.name = name) with
  | none =>
      intro d hd hname
      simp [h] at hd
      rcases hd with hd | hd
      · rw [List.find?_eq_none] at h
        exact absurd (by simp [hname]) (h d hd)
      · rw [hd]
  | some existing =>
      intro d hd hname
      simp [h] at hd
      obtain ⟨d0, hd0, hmap⟩ := hd
      by_cases hn : d0.name = name
      · rw [if_pos hn] at hmap
        rw [← hmap]
      · rw [if_neg hn] at hmap
        exact absurd (hmap ▸ hname) hn

end Vault

theorem findLog_logId {db : Vault.DBState} {logId : ℕ} {log : Vault.LogDoc}
    (h : Vault.findLog db logId = some log) : log.logId = logId := by
  have := List.find?_some h
  simpa using this

theorem findLog_after_mark (db : Vault.DBState) (logId : ℕ)
    (name : String) (log : Vault.LogDoc)
    (hlog : Vault.findLog db logId = some log) :
    Vault.findLog
      { db with logs := db.logs.map (fun l =>
          if l.logId = logId then
            { l with reviewFlag := false, enrolledAs := some name }
          else l) } logId =
      some { log with reviewFlag := false, enrolledAs := some name } := by
  have hid := findLog_logId hlog
  unfold Vault.findLog at hlog ⊢
  simp only [List.find?_map]
  have hcong : (fun l : Vault.LogDoc =>
      decide (((fun l : Vault.LogDoc =>
        if l.logId = logId then
          { l with reviewFlag := false, enrolledAs := some name }
        else l) l).logId = logId)) =
      (fun l : Vault.LogDoc => decide (l.logId = logId)) := by
    funext l
    by_cases h : l.logId = logId <;> simp [h]
  rw [Function.comp_def]
  simp only [hcong]
  rw [hlog]
  simp [hid]

theorem get_image_extend (db db' : Vault.DBState) (imgId : ℕ)
    (b : List ℕ) (more : List (ℕ × List ℕ))
    (h : Vault.get_image db imgId = some b)
    (himg : db'.images = db.images ++ more) :
    Vault.get_image db' imgId = some b := by
  unfold Vault.get_image at h ⊢
  rw [himg, List.find?_append]
  rw [Option.map_eq_some'] at h
  obtain ⟨pr, hpr, hb⟩ := h
  rw [hpr]
  simp [hb]

theorem enroll_returns_true (db : Vault.DBState) (logId : ℕ)
    (name : String) (log : Vault.LogDoc) (bytes : List ℕ)
    (hlog : Vault.findLog db logId = some log)
    (hbytes : Vault.get_image db log.imageId = some bytes)
    (hne : bytes ≠ []) :
    (Vault.enroll_unknown_as_authorized db logId name).2 = true := by
  simp only [Vault.enroll_unknown_as_authorized, hlog, hbytes,
    if_neg hne]

theorem dismiss_returns_true (db : Vault.DBState) (logId : ℕ)
    (h : (Vault.findLog db logId).isSome) :
    (Vault.dismiss_unknown db logId).2 = true := by
  obtain ⟨l, hl⟩ := Option.isSome_iff_exists.mp h
  simp only [Vault.dismiss_unknown, hl]

/-- C2 (amended): `enroll` on a detection whose log record and stored
image exist always succeeds — `DB.add_authorized_face` is an upsert, so
an existing Identity under the same name is silently overwritten (its
embedding becomes the detection's) rather than rejected with a name
conflict — and neither `enroll` nor `dismiss` checks the detection's
review state, so after the detection is marked enrolled a second
`enroll` and a `dismiss` on it still succeed. -/
theorem C2_amended (db : Vault.DBState) (logId : ℕ) (name : String)
    (log : Vault.LogDoc) (bytes : List ℕ)
    (hlog : Vault.findLog db logId = some log)
    (hbytes : Vault.get_image db log.imageId = some bytes)
    (hne : bytes ≠ []) :
    (Vault.enroll_unknown_as_authorized db logId name).2 = true ∧
    (∀ d ∈ (Vault.enroll_unknown_as_authorized db logId name).1.auth,
      d.name = name → d.embedding = log.embedding) ∧
    Vault.findLog (Vault.enroll_unknown_as_authorized db logId name).1
        logId =
      some { log with reviewFlag := false, enrolledAs := some name } ∧
    (Vault.enroll_unknown_as_authorized
      (Vault.enroll_unknown_as_authorized db logId name).1 logId
      name).2 = true ∧
    (Vault.dismiss_unknown
      (Vault.enroll_unknown_as_authorized db logId name).1 logId).2 =
      true := by
  have hE : Vault.enroll_unknown_as_authorized db logId name =
      ({ (Vault.add_authorized_face db name log.embedding bytes).1 with
         logs := (Vault.add_authorized_face db name log.embedding
           bytes).1.logs.map
           (fun l => if l.logId = logId then
              { l with reviewFlag := false, enrolledAs := some name }
            else l) }, true) := by
    simp only [Vault.enroll_unknown_as_authorized, hlog, hbytes,
      if_neg hne]
  have hlog1 : Vault.findLog
      (Vault.add_authorized_face db name log.embedding bytes).1 logId =
      some log := by
    unfold Vault.findLog
    rw [Vault.logs_after_add]
    exact hlog
  have h3 : Vault.findLog
      (Vault.enroll_unknown_as_authorized db logId name).1 logId =
      some { log with reviewFlag := false, enrolledAs := some name } := by
    rw [hE]
    exact findLog_after_mark _ logId name log hlog1
  have himg2 : Vault.get_image
      (Vault.enroll_unknown_as_authorized db logId name).1 log.imageId =
      some bytes := by
    apply get_image_extend db _ log.imageId bytes
      [(db.nextId, bytes)] hbytes
    rw [hE]
    exact Vault.images_after_add db name log.embedding bytes
  refine ⟨enroll_returns_true db logId name log bytes hlog hbytes hne,
    ?_,
    h3,
    enroll_returns_true _ logId name _ bytes h3 himg2 hne,
    dismiss_returns_true _ logId (by rw [h3]; rfl)⟩
  intro d hd hname
  rw [hE] at hd
  exact Vault.auth_after_add db name log.embedding bytes d hd hname

/-- C2 counterexample: in a database whose authorized collection
already contains `alice` (embedding `[1]`) and whose log 1 is an
unreviewed detection with embedding `[2]`, enrolling log 1 as `alice`
succeeds and overwrites the existing Identity's embedding instead of
failing with a name conflict; and after that terminal transition a
second `enroll` and a `dismiss` on the same detection both still
succeed. -/
theorem C2_counterexample :
    (Vault.enroll_unknown_as_authorized Vault.sampleDB 1 "alice").2 =
      true ∧
    ((Vault.enroll_unknown_as_authorized Vault.sampleDB 1
        "alice").1.auth.map Vault.AuthDoc.embedding) = [[2]] ∧
    (Vault.enroll_unknown_as_authorized
      (Vault.enroll_unknown_as_authorized Vault.sampleDB 1 "alice").1 1
      "bob").2 = true ∧
    (Vault.dismiss_unknown
      (Vault.enroll_unknown_as_authorized Vault.sampleDB 1
        "alice").1 1).2 = true := by
  decide

/-- C2 witness: the amended claim applied to the sample database. -/
theorem C2_witness :
    Vault.findLog Vault.sampleDB 1 =
      some { logId := 1, embedding := [2], imageId := 8,
             reviewFlag := true, enrolledAs := none,
             dismissed := false } ∧
    (Vault.enroll_unknown_as_authorized Vault.sampleDB 1 "carol").2 =
      true :=
  ⟨by decide,
   (C2_amended Vault.sampleDB 1 "carol"
      { logId := 1, embedding := [2], imageId := 8, reviewFlag := true,
        enrolledAs := none, dismissed := false } [5]
      (by decide) (by decide) (by decide)).1⟩

/-! ## C9: query before any successful build -/

/-- C9: querying an untrained index returns the empty result list for
every query vector and every `k` (the `not self.is_trained` guard fires
before any faiss call, so nothing can raise). -/
theorem C9_query_untrained (st : SearchIndex.FaissState)
    (q : List ℝ) (k : ℕ) (h : st.isTrained = false) :
    SearchIndex.query_index st q k = [] := by
  rw [SearchIndex.query_index, if_pos h]

/-- C9 witness: the freshly initialized index is untrained and a query
against it is empty. -/
theorem C9_witness :
    (SearchIndex.initState 512).isTrained = false ∧
    SearchIndex.query_index (SearchIndex.initState 512) [1, 0] 5 = [] :=
  ⟨rfl, C9_query_untrained (SearchIndex.initState 512) [1, 0] 5 rfl⟩

/-! ## C3: build failure modes -/

/-- C3 (amended): `build_index` with an empty entry list, or with
entries whose dimensions are inconsistent with each other (the ragged
`np.array` raises), reports failure and leaves the whole prior state —
entries, names, dimension and trained flag — exactly unchanged.  But a
consistent entry list whose common dimension differs from the
configured one does not fail: the build succeeds and silently
overwrites the configured dimension (search_index.py lines 73-75 only
log a warning). -/
theorem C3_amended (st : SearchIndex.FaissState)
    (embs : List (List ℝ)) (names : List String)
    (kind : SearchIndex.IndexKind) :
    ((embs = [] ∨
        ¬ SearchIndex.homogeneous embs (SearchIndex.headLen embs)) →
      SearchIndex.build_index st embs names kind = (st, false)) ∧
    (embs ≠ [] → embs.length = names.length →
      SearchIndex.homogeneous embs (SearchIndex.headLen embs) →
      0 < SearchIndex.headLen embs →
      (SearchIndex.build_index st embs names kind).2 = true ∧
      (SearchIndex.build_index st embs names kind).1.dimension =
        SearchIndex.headLen embs) := by
  constructor
  · intro h
    rcases h with h | h
    · subst h
      by_cases hl : ([] : List (List ℝ)).length ≠ names.length
      · rw [SearchIndex.build_index, if_pos hl]
      · rw [SearchIndex.build_index, if_neg hl, if_pos rfl]
    · by_cases hl : embs.length ≠ names.length
      · rw [SearchIndex.build_index, if_pos hl]
      · by_cases hemp : embs = []
        · rw [SearchIndex.build_index, if_neg hl, if_pos hemp]
        · rw [SearchIndex.build_index, if_neg hl, if_neg hemp, if_pos h]
  · intro hne hlen hhom hpos
    rw [SearchIndex.build_index]
    rw [if_neg (by simp [hlen]), if_neg hne, if_neg (not_not.mpr hhom)]
    exact ⟨rfl, rfl⟩

/-- C3 counterexample: building a freshly initialized 512-dimensional
index from a single well-formed 2-dimensional entry succeeds (returns
`True`) and changes the configured dimension from 512 to 2, whereas the
claim requires this call to fail and preserve the prior state. -/
theorem C3_counterexample :
    (SearchIndex.build_index (SearchIndex.initState 512)
      [[(1 : ℝ), 0]] ["A"] SearchIndex.IndexKind.L2).2 = true ∧
    (SearchIndex.build_index (SearchIndex.initState 512)
      [[(1 : ℝ), 0]] ["A"] SearchIndex.IndexKind.L2).1.dimension = 2 ∧
    (SearchIndex.initState 512).dimension = 512 := by
  refine ⟨?_, ?_, rfl⟩ <;>
    simp [SearchIndex.build_index, SearchIndex.homogeneous,
      SearchIndex.headLen]

/-- C3 witness: an empty build preserves the fresh state and reports
failure; a consistent 2-dimensional build succeeds. -/
theorem C3_witness :
    SearchIndex.build_index (SearchIndex.initState 512) [] []
      SearchIndex.IndexKind.L2 = (SearchIndex.initState 512, false) ∧
    (SearchIndex.build_index (SearchIndex.initState 2) [[(1 : ℝ), 0]]
      ["A"] SearchIndex.IndexKind.L2).2 = true :=
  ⟨(C3_amended (SearchIndex.initState 512) [] []
      SearchIndex.IndexKind.L2).1 (Or.inl rfl),
   ((C3_amended (SearchIndex.initState 2) [[(1 : ℝ), 0]] ["A"]
      SearchIndex.IndexKind.L2).2 (by simp) (by simp)
      (by intro v hv; simp at hv; rw [hv, SearchIndex.headLen]; rfl)
      (by simp [SearchIndex.headLen])).1⟩

/-! ## C8: query result shape -/

theorem convert_antitone (kind : SearchIndex.IndexKind)
    {a b : ℕ × ℝ} (h : SearchIndex.pref kind a b) :
    SearchIndex.convertScore kind b.2 ≤ SearchIndex.convertScore kind a.2 := by
  cases kind
  · exact Real.exp_le_exp.mpr (by dsimp [SearchIndex.pref] at h; linarith)
  · exact h

theorem ranked_shape (kind : SearchIndex.IndexKind)
    (scored : List (ℕ × ℝ)) (names : List String) (k : ℕ) :
    (((((List.insertionSort (SearchIndex.pref kind) scored).take
        (min k names.length)).filter
        (fun p => p.1 < names.length)).map
        (fun p => (names.getD p.1 "",
          SearchIndex.convertScore kind p.2))).length ≤
      min k names.length) ∧
    List.Sorted (· ≥ ·)
      ((((((List.insertionSort (SearchIndex.pref kind) scored).take
        (min k names.length)).filter
        (fun p => p.1 < names.length)).map
        (fun p => (names.getD p.1 "",
          SearchIndex.convertScore kind p.2)))).map Prod.snd) := by
  constructor
  · rw [List.length_map]
    calc ((((List.insertionSort (SearchIndex.pref kind) scored).take
        (min k names.length)).filter
        (fun p => p.1 < names.length))).length ≤
        (((List.insertionSort (SearchIndex.pref kind) scored).take
          (min k names.length))).length := List.length_filter_le _ _
    _ ≤ min k names.length := by
        rw [List.length_take]
        exact min_le_left _ _
  · have hsorted : List.Pairwise (SearchIndex.pref kind)
        ((((List.insertionSort (SearchIndex.pref kind) scored).take
          (min k names.length)).filter
          (fun p => p.1 < names.length))) := by
      apply List.Pairwise.sublist
        (List.Sublist.trans (List.filter_sublist _)
          (List.take_sublist _ _))
      exact List.sorted_insertionSort (SearchIndex.pref kind) scored
    rw [List.map_map]
    show List.Pairwise _ _
    rw [List.pairwise_map]
    apply hsorted.imp
    intro a b h
    exact convert_antitone kind h

/-- C8: for every index state, query vector and `k`, `query_index`
returns at most `min k n` results (with `n` the number of names), the
reported similarity scores are sorted in descending order, and the
`L2` backend's distance-to-similarity conversion maps distance 0 to
similarity 1 and is strictly decreasing in the raw distance. -/
theorem C8_query_shape (st : SearchIndex.FaissState) (q : List ℝ)
    (k : ℕ) :
    (SearchIndex.query_index st q k).length ≤ min k st.names.length ∧
    List.Sorted (· ≥ ·)
      ((SearchIndex.query_index st q k).map Prod.snd) ∧
    SearchIndex.convertScore SearchIndex.IndexKind.L2 0 = 1 ∧
    StrictAnti (SearchIndex.convertScore SearchIndex.IndexKind.L2) := by
  have hconv1 : SearchIndex.convertScore SearchIndex.IndexKind.L2 0 = 1 := by
    show Real.exp (-((0 : ℝ) / 10)) = 1
    norm_num
  have hanti : StrictAnti
      (SearchIndex.convertScore SearchIndex.IndexKind.L2) := by
    intro a b hab
    show Real.exp (-(b / 10)) < Real.exp (-(a / 10))
    exact Real.exp_lt_exp.mpr (by linarith)
  refine ⟨?_, ?_, hconv1, hanti⟩ <;>
  · rw [SearchIndex.query_index]
    split
    · simp
    · split
      · simp
      · rename_i kind vecs heq
        split
        · simp
        · first
          | exact (ranked_shape kind
              ((vecs.enum.map (fun p => (p.1,
                SearchIndex.rawScore kind p.2
                  (if kind = SearchIndex.IndexKind.IP then
                    SearchIndex.faissNormalizeRow q else q)))))
              st.names k).1
          | exact (ranked_shape kind
              ((vecs.enum.map (fun p => (p.1,
                SearchIndex.rawScore kind p.2
                  (if kind = SearchIndex.IndexKind.IP then
                    SearchIndex.faissNormalizeRow q else q)))))
              st.names k).2

/-! ## C4: maintained index versus fresh rebuild -/

theorem build_success_good (st : SearchIndex.FaissState)
    (embs : List (List ℝ)) (names : List String)
    (h : (SearchIndex.build_index st embs names
      SearchIndex.IndexKind.L2).2 = true) :
    SearchIndex.goodState
      (SearchIndex.build_index st embs names
        SearchIndex.IndexKind.L2).1 := by
  rw [SearchIndex.build_index] at h ⊢
  by_cases h1 : embs.length ≠ names.length
  · rw [if_pos h1] at h
    simp at h
  · rw [if_neg h1] at h ⊢
    by_cases h2 : embs = []
    · rw [if_pos h2] at h
      simp at h
    · rw [if_neg h2] at h ⊢
      by_cases h3 : ¬ SearchIndex.homogeneous embs
          (SearchIndex.headLen embs)
      · rw [if_pos h3] at h
        simp at h
      · rw [if_neg h3]
        refine ⟨rfl, rfl, ?_, ?_, ?_⟩
        · exact (not_ne_iff.mp h1).symm
        · exact not_not.mp h3
        · exact h2

theorem headLen_eq_of_homogeneous (embs : List (List ℝ)) (d : ℕ)
    (hne : embs ≠ []) (hhom : SearchIndex.homogeneous embs d) :
    SearchIndex.headLen embs = d := by
  cases embs with
  | nil => exact absurd rfl hne
  | cons v rest =>
      show (List.headD (v :: rest) []).length = d
      simpa using hhom v (List.mem_cons_self v rest)

theorem good_query_eq (st : SearchIndex.FaissState)
    (hg : SearchIndex.goodState st) (q : List ℝ) (k : ℕ) :
    SearchIndex.query_index st q k = SearchIndex.freshQuery st q k := by
  obtain ⟨ht, hvec, hlen, hhom, hne⟩ := hg
  have hnames : st.names ≠ [] := by
    intro h0
    rw [h0] at hlen
    exact hne (List.length_eq_zero.mp hlen.symm)
  have hmsnd : (SearchIndex.logicalEntries st).map Prod.snd =
      st.embeddings :=
    List.map_snd_zip st.names st.embeddings (le_of_eq hlen.symm)
  have hmfst : (SearchIndex.logicalEntries st).map Prod.fst =
      st.names :=
    List.map_fst_zip st.names st.embeddings (le_of_eq hlen)
  have hhd : SearchIndex.headLen st.embeddings = st.dimension :=
    headLen_eq_of_homogeneous _ _ hne hhom
  have hbuild : SearchIndex.build_index
      (SearchIndex.initState st.dimension) st.embeddings st.names
      SearchIndex.IndexKind.L2 = (st, true) := by
    rw [SearchIndex.build_index, if_neg (by simp [hlen]), if_neg hne,
      if_neg (not_not.mpr (hhd ▸ hhom))]
    cases st with
    | mk d ns es iv tr =>
        simp only at hvec ht hhd ⊢
        simp [hhd, hvec, ht]
  unfold SearchIndex.freshQuery
  rw [hmsnd, hmfst, hbuild]

theorem empty_query_eq (st : SearchIndex.FaissState)
    (h1 : st.isTrained = false) (h2 : st.names = []) (q : List ℝ)
    (k : ℕ) :
    SearchIndex.query_index st q k = SearchIndex.freshQuery st q k := by
  rw [SearchIndex.query_index, if_pos h1]
  unfold SearchIndex.freshQuery SearchIndex.logicalEntries
  rw [h2]
  simp [SearchIndex.build_index, SearchIndex.query_index,
    SearchIndex.initState]

theorem applyOp_success_stable (st : SearchIndex.FaissState)
    (op : SearchIndex.IndexOp)
    (h : (SearchIndex.applyOp st op).2 = true) :
    SearchIndex.stableState (SearchIndex.applyOp st op).1 := by
  cases op with
  | add name v =>
      exact Or.inr (build_success_good _ _ _ h)
  | update name v =>
      have he : SearchIndex.applyOp st
          (SearchIndex.IndexOp.update name v) =
          SearchIndex.update_embedding st name v := rfl
      rw [he] at h ⊢
      rw [SearchIndex.update_embedding] at h ⊢
      by_cases hmem : name ∉ st.names
      · rw [if_pos hmem] at h
        simp at h
      · rw [if_neg hmem] at h ⊢
        by_cases hidx : st.names.indexOf name < st.embeddings.length
        · rw [if_pos hidx] at h ⊢
          by_cases hlen : v.length =
              (st.embeddings.getD (st.names.indexOf name) []).length
          · rw [if_pos hlen] at h ⊢
            exact Or.inr (build_success_good _ _ _ h)
          · rw [if_neg hlen] at h ⊢
            by_cases hone : v.length = 1
            · rw [if_pos hone] at h ⊢
              exact Or.inr (build_success_good _ _ _ h)
            · rw [if_neg hone] at h
              simp at h
        · rw [if_neg hidx] at h
          simp at h
  | remove name =>
      have he : SearchIndex.applyOp st
          (SearchIndex.IndexOp.remove name) =
          SearchIndex.remove_face st name := rfl
      rw [he] at h ⊢
      rw [SearchIndex.remove_face] at h ⊢
      by_cases hmem : name ∉ st.names
      · rw [if_pos hmem] at h
        simp at h
      · rw [if_neg hmem] at h ⊢
        by_cases hidx : st.names.indexOf name < st.embeddings.length
        · rw [if_pos hidx] at h ⊢
          by_cases hrest : st.names.eraseIdx (st.names.indexOf name) ≠ []
          · rw [if_pos hrest] at h ⊢
            exact Or.inr (build_success_good _ _ _ h)
          · rw [if_neg hrest]
            exact Or.inl ⟨rfl, not_ne_iff.mp hrest⟩
        · rw [if_neg hidx] at h
          simp at h

theorem applyOps_stable_queryEq :
    ∀ (ops : List SearchIndex.IndexOp) (st : SearchIndex.FaissState),
    SearchIndex.stableState st → SearchIndex.allSucceed st ops →
    ∀ q k, SearchIndex.query_index (SearchIndex.applyOps st ops) q k =
      SearchIndex.freshQuery (SearchIndex.applyOps st ops) q k
  | [], st, hst, _, q, k => by
      rcases hst with ⟨h1, h2⟩ | hg
      · exact empty_query_eq st h1 h2 q k
      · exact good_query_eq st hg q k
  | op :: rest, st, hst, hok, q, k =>
      applyOps_stable_queryEq rest (SearchIndex.applyOp st op).1
        (applyOp_success_stable st op hok.1) hok.2 q k

/-- C4 (amended): starting from a freshly initialized index, after any
sequence of insert/update/remove operations in which every operation
reports success, a query returns exactly the same results as a query
against a freshly built index over the current logical entry set.  (The
unqualified claim is false: a failing operation mutates the name list
or the embedding matrix before the rebuild that fails, desynchronizing
the maintained index from the logical entry set.) -/
theorem C4_amended (d k : ℕ) (q : List ℝ)
    (ops : List SearchIndex.IndexOp)
    (hok : SearchIndex.allSucceed (SearchIndex.initState d) ops) :
    SearchIndex.query_index
        (SearchIndex.applyOps (SearchIndex.initState d) ops) q k =
      SearchIndex.freshQuery
        (SearchIndex.applyOps (SearchIndex.initState d) ops) q k :=
  applyOps_stable_queryEq ops (SearchIndex.initState d)
    (Or.inl ⟨rfl, rfl⟩) hok q k

theorem c4_step1 :
    SearchIndex.applyOp (SearchIndex.initState 512)
      (SearchIndex.IndexOp.add "A" [(1 : ℝ), 0]) =
    ({ dimension := 2
       names := ["A"]
       embeddings := [[1, 0]]
       indexVecs := some (SearchIndex.IndexKind.L2, [[1, 0]])
       isTrained := true }, true) := by
  simp only [SearchIndex.applyOp, SearchIndex.add_face]
  rw [SearchIndex.build_index, if_neg (by simp [SearchIndex.initState]),
    if_neg (by simp [SearchIndex.initState]),
    if_neg (by simp [SearchIndex.homogeneous, SearchIndex.headLen,
      SearchIndex.initState])]
  rfl

theorem c4_step2 :
    SearchIndex.applyOp
      ({ dimension := 2
         names := ["A"]
         embeddings := [[1, 0]]
         indexVecs := some (SearchIndex.IndexKind.L2, [[1, 0]])
         isTrained := true } : SearchIndex.FaissState)
      (SearchIndex.IndexOp.add "B" [(1 : ℝ), 0, 0]) =
    ({ dimension := 2
       names := ["A", "B"]
       embeddings := [[1, 0]]
       indexVecs := some (SearchIndex.IndexKind.L2, [[1, 0]])
       isTrained := true }, false) := by
  simp only [SearchIndex.applyOp, SearchIndex.add_face]
  rw [SearchIndex.build_index, if_neg (by simp), if_neg (by simp),
    if_pos (by
      intro hhom
      have := hhom [(1 : ℝ), 0, 0] (by simp)
      simp [SearchIndex.headLen] at this)]
  rfl

theorem c4_step3 :
    SearchIndex.applyOp
      ({ dimension := 2
         names := ["A", "B"]
         embeddings := [[1, 0]]
         indexVecs := some (SearchIndex.IndexKind.L2, [[1, 0]])
         isTrained := true } : SearchIndex.FaissState)
      (SearchIndex.IndexOp.update "A" [(0 : ℝ), 1]) =
    ({ dimension := 2
       names := ["A", "B"]
       embeddings := [[0, 1]]
       indexVecs := some (SearchIndex.IndexKind.L2, [[1, 0]])
       isTrained := true }, false) := by
  simp only [SearchIndex.applyOp]
  rw [SearchIndex.update_embedding, if_neg (by simp),
    if_pos (by simp), if_pos (by simp)]
  rw [SearchIndex.build_index, if_pos (by simp)]
  simp

theorem c4_query_live :
    SearchIndex.query_index
      ({ dimension := 2
         names := ["A", "B"]
         embeddings := [[0, 1]]
         indexVecs := some (SearchIndex.IndexKind.L2, [[1, 0]])
         isTrained := true } : SearchIndex.FaissState)
      [(1 : ℝ), 0] 1 = [("A", 1)] := by
  simp [SearchIndex.query_index, SearchIndex.rawScore, SearchIndex.sqDist,
    SearchIndex.pref, SearchIndex.convertScore, List.enum,
    List.enumFrom, List.insertionSort, List.orderedInsert, List.getD]

theorem c4_query_fresh :
    SearchIndex.freshQuery
      ({ dimension := 2
         names := ["A", "B"]
         embeddings := [[0, 1]]
         indexVecs := some (SearchIndex.IndexKind.L2, [[1, 0]])
         isTrained := true } : SearchIndex.FaissState)
      [(1 : ℝ), 0] 1 = [("A", Real.exp (-(2 / 10)))] := by
  simp [SearchIndex.freshQuery, SearchIndex.logicalEntries,
    SearchIndex.build_index, SearchIndex.initState,
    SearchIndex.homogeneous, SearchIndex.headLen,
    SearchIndex.query_index, SearchIndex.rawScore, SearchIndex.sqDist,
    SearchIndex.pref, SearchIndex.convertScore, List.enum,
    List.enumFrom, List.insertionSort, List.orderedInsert, List.getD]
  norm_num

/-- C4 counterexample: the unqualified claim fails once an operation in
the sequence fails.  After `add "A" [1,0]` (succeeds), `add "B"
[1,0,0]` (fails on the dimension mismatch, but the name list was
already mutated) and `update "A" [0,1]` (mutates the stored matrix,
then fails the rebuild because names and embeddings are out of step),
the maintained index still answers from the stale vector `[1,0]` and
reports similarity 1 for the probe `[1,0]`, while a fresh build over
the current logical entry set stores `[0,1]` and reports
`exp(-2/10) < 1`. -/
theorem C4_counterexample :
    SearchIndex.query_index
        (SearchIndex.applyOps (SearchIndex.initState 512)
          [SearchIndex.IndexOp.add "A" [(1 : ℝ), 0],
           SearchIndex.IndexOp.add "B" [1, 0, 0],
           SearchIndex.IndexOp.update "A" [0, 1]]) [(1 : ℝ), 0] 1 ≠
      SearchIndex.freshQuery
        (SearchIndex.applyOps (SearchIndex.initState 512)
          [SearchIndex.IndexOp.add "A" [(1 : ℝ), 0],
           SearchIndex.IndexOp.add "B" [1, 0, 0],
           SearchIndex.IndexOp.update "A" [0, 1]]) [(1 : ℝ), 0] 1 := by
  intro heq
  have eops : SearchIndex.applyOps (SearchIndex.initState 512)
      [SearchIndex.IndexOp.add "A" [(1 : ℝ), 0],
       SearchIndex.IndexOp.add "B" [1, 0, 0],
       SearchIndex.IndexOp.update "A" [0, 1]] =
      ({ dimension := 2
         names := ["A", "B"]
         embeddings := [[0, 1]]
         indexVecs := some (SearchIndex.IndexKind.L2, [[1, 0]])
         isTrained := true } : SearchIndex.FaissState) := by
    simp only [SearchIndex.applyOps, c4_step1, c4_step2, c4_step3]
  rw [eops, c4_query_live, c4_query_fresh] at heq
  simp only [List.cons.injEq, Prod.mk.injEq, and_true, true_and] at heq
  have hlt : Real.exp (-(2 / 10 : ℝ)) < 1 := by
    calc Real.exp (-(2 / 10 : ℝ)) < Real.exp 0 :=
          Real.exp_lt_exp.mpr (by norm_num)
    _ = 1 := Real.exp_zero
  rw [← heq] at hlt
  exact lt_irrefl 1 hlt

/-- C4 witness: the amended claim applied to the all-successful
sequence consisting of one insertion. -/
theorem C4_witness :
    SearchIndex.allSucceed (SearchIndex.initState 512)
      [SearchIndex.IndexOp.add "A" [(1 : ℝ), 0]] ∧
    SearchIndex.query_index
        (SearchIndex.applyOps (SearchIndex.initState 512)
          [SearchIndex.IndexOp.add "A" [(1 : ℝ), 0]]) [(1 : ℝ), 0] 1 =
      SearchIndex.freshQuery
        (SearchIndex.applyOps (SearchIndex.initState 512)
          [SearchIndex.IndexOp.add "A" [(1 : ℝ), 0]]) [(1 : ℝ), 0] 1 :=
  ⟨⟨by rw [c4_step1], trivial⟩,
   C4_amended 512 1 [(1 : ℝ), 0]
     [SearchIndex.IndexOp.add "A" [(1 : ℝ), 0]]
     ⟨by rw [c4_step1], trivial⟩⟩


/-! ## C6: classification against the authorized cache -/

theorem recogStep_of_not_lt (M : ℝ) (emb : List ℝ)
    (acc : Option String × ℝ) (p : String × List ℝ)
    (h : ¬ acc.2 < FaceUtils.cosine_similarity emb p.2) :
    Main.recogStep M emb acc p = acc := by
  unfold Main.recogStep
  rw [if_neg h]

theorem recogStep_of_lt_ge (M : ℝ) (emb : List ℝ)
    (acc : Option String × ℝ) (p : String × List ℝ)
    (h1 : acc.2 < FaceUtils.cosine_similarity emb p.2)
    (h2 : M ≤ FaceUtils.cosine_similarity emb p.2) :
    Main.recogStep M emb acc p =
      (some p.1, FaceUtils.cosine_similarity emb p.2) := by
  unfold Main.recogStep
  rw [if_pos h1, if_pos h2]

theorem recogStep_of_lt_lt (M : ℝ) (emb : List ℝ)
    (acc : Option String × ℝ) (p : String × List ℝ)
    (h1 : acc.2 < FaceUtils.cosine_similarity emb p.2)
    (h2 : ¬ M ≤ FaceUtils.cosine_similarity emb p.2) :
    Main.recogStep M emb acc p =
      (acc.1, FaceUtils.cosine_similarity emb p.2) := by
  unfold Main.recogStep
  rw [if_pos h1, if_neg h2]

theorem rec_fold (M : ℝ) (emb : List ℝ) :
    ∀ (cache : List (String × List ℝ)) (acc : Option String × ℝ),
    (∀ nm, acc.1 = some nm → M ≤ acc.2) →
    ((cache.foldl (Main.recogStep M emb) acc).2 =
      cache.foldl
        (fun b p => max b (FaceUtils.cosine_similarity emb p.2))
        acc.2) ∧
    (∀ nm, (cache.foldl (Main.recogStep M emb) acc).1 = some nm →
      (acc.1 = some nm ∧
        (cache.foldl (Main.recogStep M emb) acc).2 = acc.2) ∨
      (M ≤ (cache.foldl (Main.recogStep M emb) acc).2 ∧
        ∃ v, (nm, v) ∈ cache ∧
          FaceUtils.cosine_similarity emb v =
            (cache.foldl (Main.recogStep M emb) acc).2)) ∧
    ((cache.foldl (Main.recogStep M emb) acc).1 = none →
      acc.1 = none ∧
        ((cache.foldl (Main.recogStep M emb) acc).2 = acc.2 ∨
          (cache.foldl (Main.recogStep M emb) acc).2 < M))
  | [], acc, hacc => by
      refine ⟨rfl, ?_, ?_⟩
      · intro nm h
        exact Or.inl ⟨h, rfl⟩
      · intro h
        exact ⟨h, Or.inl rfl⟩
  | p :: rest, acc, hacc => by
      have hcons : (p :: rest).foldl (Main.recogStep M emb) acc =
          rest.foldl (Main.recogStep M emb)
            (Main.recogStep M emb acc p) := rfl
      have hconsMax : (p :: rest).foldl
          (fun b p => max b (FaceUtils.cosine_similarity emb p.2))
          acc.2 =
          rest.foldl
            (fun b p => max b (FaceUtils.cosine_similarity emb p.2))
            (max acc.2 (FaceUtils.cosine_similarity emb p.2)) := rfl
      rw [hcons, hconsMax]
      by_cases hlt : acc.2 < FaceUtils.cosine_similarity emb p.2
      · by_cases hm : M ≤ FaceUtils.cosine_similarity emb p.2
        · rw [recogStep_of_lt_ge M emb acc p hlt hm]
          obtain ⟨ih1, ih2, ih3⟩ := rec_fold M emb rest
            (some p.1, FaceUtils.cosine_similarity emb p.2)
            (by intro nm h; exact hm)
          refine ⟨?_, ?_, ?_⟩
          · rw [ih1, max_eq_right (le_of_lt hlt)]
          · intro nm h
            rcases ih2 nm h with ⟨hs, he⟩ | ⟨hge, v, hv, hcos⟩
            · refine Or.inr ⟨by rw [he]; exact hm, p.2, ?_, ?_⟩
              · simp only at hs
                rw [Option.some_inj] at hs
                rw [← hs]
                exact List.mem_cons_self p rest
              · rw [he]
            · exact Or.inr ⟨hge, v, List.mem_cons_of_mem p hv, hcos⟩
          · intro h
            obtain ⟨hnone, _⟩ := ih3 h
            simp at hnone
        · rw [recogStep_of_lt_lt M emb acc p hlt hm]
          obtain ⟨ih1, ih2, ih3⟩ := rec_fold M emb rest
            (acc.1, FaceUtils.cosine_similarity emb p.2)
            (by
              intro nm h
              simp only at h
              exact absurd (le_trans (hacc nm h) (le_of_lt hlt)) hm)
          refine ⟨?_, ?_, ?_⟩
          · rw [ih1, max_eq_right (le_of_lt hlt)]
          · intro nm h
            rcases ih2 nm h with ⟨hs, _⟩ | ⟨hge, v, hv, hcos⟩
            · simp only at hs
              exact absurd (le_trans (hacc nm hs) (le_of_lt hlt)) hm
            · exact Or.inr ⟨hge, v, List.mem_cons_of_mem p hv, hcos⟩
          · intro h
            obtain ⟨hnone, hval⟩ := ih3 h
            simp only at hnone hval
            refine ⟨hnone, Or.inr ?_⟩
            rcases hval with hval | hval
            · rw [hval]
              exact lt_of_not_le hm
            · exact hval
      · rw [recogStep_of_not_lt M emb acc p hlt]
        obtain ⟨ih1, ih2, ih3⟩ := rec_fold M emb rest acc hacc
        refine ⟨?_, ?_, ?_⟩
        · rw [ih1, max_eq_left (le_of_not_lt hlt)]
        · intro nm h
          rcases ih2 nm h with ⟨hs, he⟩ | ⟨hge, v, hv, hcos⟩
          · exact Or.inl ⟨hs, he⟩
          · exact Or.inr ⟨hge, v, List.mem_cons_of_mem p hv, hcos⟩
        · exact ih3

theorem foldl_max_le_init (emb : List ℝ) :
    ∀ (l : List (String × List ℝ)) (b : ℝ),
    b ≤ l.foldl (fun b p => max b (FaceUtils.cosine_similarity emb p.2)) b
  | [], b => le_refl b
  | _ :: rest, _ =>
      le_trans (le_max_left _ _) (foldl_max_le_init emb rest _)

theorem mem_le_foldl_max (emb : List ℝ) :
    ∀ (l : List (String × List ℝ)) (b : ℝ) (q : String × List ℝ),
    q ∈ l →
    FaceUtils.cosine_similarity emb q.2 ≤
      l.foldl (fun b p => max b (FaceUtils.cosine_similarity emb p.2)) b
  | [], b, q, hq => absurd hq (List.not_mem_nil q)
  | p :: rest, b, q, hq => by
      rcases List.mem_cons.mp hq with hq | hq
      · rw [hq]
        exact le_trans (le_max_right b _) (foldl_max_le_init emb rest _)
      · exact mem_le_foldl_max emb rest _ q hq

/-- C6: with the linear-scan backend, classification always reports the
best similarity seen over the enrolled identities (zero for an empty
catalog); when that best similarity is below the match threshold `M`
the reported name is `None`, and when it is at least `M` the reported
name is an enrolled identity whose similarity equals the reported
score.  (`M` is required positive; the deployed `MATCH_THRESHOLD` is
0.40, and with `M = 0` the code would return `None` on an all-zero
similarity scan even though `0 ≥ M`.) -/
theorem C6_classify (M : ℝ) (idx : SearchIndex.FaissState)
    (cache : List (String × List ℝ)) (emb : List ℝ) (hM : 0 < M) :
    (Main.recognize_face M false idx cache emb).2 =
      Main.bestSim cache emb ∧
    (∀ nm v, (nm, v) ∈ cache →
      FaceUtils.cosine_similarity emb v ≤ Main.bestSim cache emb) ∧
    (Main.bestSim cache emb < M →
      (Main.recognize_face M false idx cache emb).1 = none) ∧
    (M ≤ Main.bestSim cache emb →
      ∃ nm v, (nm, v) ∈ cache ∧
        (Main.recognize_face M false idx cache emb).1 = some nm ∧
        FaceUtils.cosine_similarity emb v = Main.bestSim cache emb) := by
  by_cases hc : cache = []
  · subst hc
    refine ⟨rfl, by simp, fun _ => rfl, fun h => absurd hM ?_⟩
    have : M ≤ 0 := h
    exact not_lt.mpr this
  · rw [Main.recognize_face, if_neg hc, if_neg (by simp)]
    obtain ⟨h1, h2, h3⟩ := rec_fold M emb cache (none, 0)
      (by intro nm h; simp at h)
    have hbs : Main.bestSim cache emb =
        (cache.foldl (Main.recogStep M emb) (none, 0)).2 := h1.symm
    refine ⟨h1, ?_, ?_, ?_⟩
    · intro nm v hv
      exact mem_le_foldl_max emb cache 0 (nm, v) hv
    · intro hlt
      cases hr : (cache.foldl (Main.recogStep M emb) (none, 0)).1 with
      | none => rfl
      | some nm =>
          rcases h2 nm hr with ⟨hs, _⟩ | ⟨hge, _, _, _⟩
          · simp at hs
          · rw [hbs] at hlt
            exact absurd hge (not_le.mpr hlt)
    · intro hge
      cases hr : (cache.foldl (Main.recogStep M emb) (none, 0)).1 with
      | none =>
          obtain ⟨-, hval⟩ := h3 hr
          rw [hbs] at hge
          rcases hval with hval | hval
          · rw [hval] at hge
            exact absurd hM (not_lt.mpr hge)
          · exact absurd hge (not_le.mpr hval)
      | some nm =>
          rcases h2 nm hr with ⟨hs, _⟩ | ⟨_, v, hv, hcos⟩
          · simp at hs
          · exact ⟨nm, v, hv, rfl, by rw [hcos, hbs]⟩

/-- C6 witness: a one-identity catalog matched by its own vector at the
deployed threshold. -/
theorem C6_witness :
    (0 : ℝ) < Config.MATCH_THRESHOLD ∧
    (Main.recognize_face Config.MATCH_THRESHOLD false
        (SearchIndex.initState 512) [("alice", [1, 0])]
        [(1 : ℝ), 0]).2 =
      Main.bestSim [("alice", [1, 0])] [(1 : ℝ), 0] :=
  ⟨by norm_num [Config.MATCH_THRESHOLD],
   (C6_classify Config.MATCH_THRESHOLD (SearchIndex.initState 512)
      [("alice", [1, 0])] [(1 : ℝ), 0]
      (by norm_num [Config.MATCH_THRESHOLD])).1⟩

/-! ## C7: temporal aggregator -/

theorem zipWith_add_self_twice :
    ∀ v : List ℝ,
    List.zipWith (· + ·) v (List.zipWith (· + ·) v v) =
      v.map (fun x => 3 * x)
  | [] => rfl
  | x :: xs => by
      have ih := zipWith_add_self_twice xs
      show (x + (x + x)) ::
          List.zipWith (· + ·) xs (List.zipWith (· + ·) xs xs) =
        (3 * x) :: xs.map (fun x => 3 * x)
      rw [ih, show x + (x + x) = 3 * x by ring]

theorem meanVec_replicate_three (v : List ℝ) :
    Main.meanVec (List.replicate 3 v) = v := by
  have hsum : Main.sumVecs [v, v, v] = v.map (fun x => 3 * x) :=
    zipWith_add_self_twice v
  show (Main.sumVecs [v, v, v]).map
    (· / (([v, v, v] : List (List ℝ)).length : ℝ)) = v
  rw [hsum, List.map_map]
  have hfun : ((· / (([v, v, v] : List (List ℝ)).length : ℝ)) ∘
      fun x => 3 * x) = fun x : ℝ => x := by
    funext x
    show (3 : ℝ) * x / 3 = x
    field_simp
  rw [hfun, List.map_id']

theorem observeBuffer_le (W : ℕ) (buf : List (List ℝ)) (v : List ℝ)
    (hle : buf.length ≤ W) :
    (Main.observeBuffer W buf v).length ≤ W := by
  rw [Main.observeBuffer]
  have hlen : (buf ++ [v]).length = buf.length + 1 := by simp
  split
  · rw [List.length_drop]
    omega
  · rename_i hW
    omega

theorem observeBuffer_evict (W : ℕ) (buf : List (List ℝ))
    (v : List ℝ) (hfull : buf.length = W) (hW : 0 < W) :
    Main.observeBuffer W buf v = buf.tail ++ [v] := by
  rw [Main.observeBuffer]
  have hlen : (buf ++ [v]).length = buf.length + 1 := by simp
  rw [if_pos (by omega)]
  have hdrop : (buf ++ [v]).length - W = 1 := by omega
  rw [hdrop, List.drop_append_of_le_length (by omega), List.drop_one]

/-- C7: the per-face buffer keeps at most `W = MULTIFRAME_COUNT`
embeddings; when a full buffer receives one more vector the oldest
entry is evicted from the front; and observing the same unit vector
`MULTIFRAME_COUNT` times starting from an empty buffer fills the buffer
with that vector and returns exactly that vector as the smoothed query
(the arithmetic mean of identical vectors renormalized is the vector
itself). -/
theorem C7_aggregator (buf : List (List ℝ)) (v : List ℝ) :
    (buf.length ≤ Config.MULTIFRAME_COUNT →
      (Main.observeBuffer Config.MULTIFRAME_COUNT buf v).length ≤
        Config.MULTIFRAME_COUNT) ∧
    (buf.length = Config.MULTIFRAME_COUNT →
      Main.observeBuffer Config.MULTIFRAME_COUNT buf v =
        buf.tail ++ [v]) ∧
    (FaceUtils.norm v = 1 →
      Main.smoothIter Config.MULTIFRAME_COUNT [] []
          (List.replicate Config.MULTIFRAME_COUNT v) =
        (List.replicate Config.MULTIFRAME_COUNT v, v)) := by
  refine ⟨observeBuffer_le Config.MULTIFRAME_COUNT buf v,
    fun hfull => observeBuffer_evict Config.MULTIFRAME_COUNT buf v
      hfull (by norm_num [Config.MULTIFRAME_COUNT]), ?_⟩
  intro hnorm
  show Main.smoothIter 3 [] [] [v, v, v] = ([v, v, v], v)
  have hb1 : Main.observeBuffer 3 [] v = [v] := by
    rw [Main.observeBuffer]
    simp
  have hb2 : Main.observeBuffer 3 [v] v = [v, v] := by
    rw [Main.observeBuffer]
    simp
  have hb3 : Main.observeBuffer 3 [v, v] v = [v, v, v] := by
    rw [Main.observeBuffer]
    simp
  have hsm : (Main.multiFrameSmooth 3 [v, v] v).1 = [v, v, v] ∧
      (Main.multiFrameSmooth 3 [v, v] v).2 = v := by
    constructor
    · show (Main.observeBuffer 3 [v, v] v) = [v, v, v]
      exact hb3
    · show (Main.meanVec (Main.observeBuffer 3 [v, v] v)).map
        (· / FaceUtils.norm (Main.meanVec (Main.observeBuffer 3 [v, v] v)))
        = v
      rw [hb3, show ([v, v, v] : List (List ℝ)) =
        List.replicate 3 v from rfl, meanVec_replicate_three, hnorm]
      simp
  show Main.smoothIter 3 (Main.multiFrameSmooth 3 [] v).1
    (Main.multiFrameSmooth 3 [] v).2 [v, v] = ([v, v, v], v)
  have h1 : (Main.multiFrameSmooth 3 [] v).1 = [v] := hb1
  rw [h1]
  show Main.smoothIter 3 (Main.multiFrameSmooth 3 [v] v).1
    (Main.multiFrameSmooth 3 [v] v).2 [v] = ([v, v, v], v)
  have h2 : (Main.multiFrameSmooth 3 [v] v).1 = [v, v] := hb2
  rw [h2]
  show ((Main.multiFrameSmooth 3 [v, v] v).1,
    (Main.multiFrameSmooth 3 [v, v] v).2) = ([v, v, v], v)
  rw [hsm.1, hsm.2]

/-- C7 witness: three observations of the unit vector `[1,0]` starting
from an empty buffer fill the buffer and return the vector itself, and
the appended buffer stays within capacity. -/
theorem C7_witness :
    FaceUtils.norm [(1 : ℝ), 0] = 1 ∧
    (Main.observeBuffer Config.MULTIFRAME_COUNT [] [(1 : ℝ), 0]).length ≤
      Config.MULTIFRAME_COUNT ∧
    Main.smoothIter Config.MULTIFRAME_COUNT [] []
        (List.replicate Config.MULTIFRAME_COUNT [(1 : ℝ), 0]) =
      (List.replicate Config.MULTIFRAME_COUNT [(1 : ℝ), 0],
        [(1 : ℝ), 0]) :=
  ⟨FaceUtils.norm_one_zero,
   (C7_aggregator [] [(1 : ℝ), 0]).1 (by norm_num),
   (C7_aggregator [] [(1 : ℝ), 0]).2.2 FaceUtils.norm_one_zero⟩

/-! ## C5: adaptive updater -/

/-- C5: the adaptive updater bumps the per-identity counter on every
successful recognition; when the new count is not a multiple of
`ADAPTIVE_UPDATE_FREQUENCY` the cached vector, the persistent store and
the similarity index are all left untouched; when it is a multiple, the
stored vector becomes `normalize(old*(1-alpha) + e*alpha)` — unit-norm
whenever the blend is nonzero — and that same vector is written to the
in-memory cache, to the persistent store (when the document exists),
and through the similarity index's update call (when faiss is in
use). -/
theorem C5_adaptive (st : Main.AdaptState) (name : String)
    (old e : List ℝ)
    (hcache : st.cache name = some old)
    (hlen : old.length = e.length) :
    ((st.counts name + 1) % Config.ADAPTIVE_UPDATE_FREQUENCY ≠ 0 →
      (Main.update_adaptive_embedding Config.ENABLE_ADAPTIVE_UPDATE
          Config.ADAPTIVE_UPDATE_FREQUENCY Config.ADAPTIVE_ALPHA
          st name e).cache = st.cache ∧
      (Main.update_adaptive_embedding Config.ENABLE_ADAPTIVE_UPDATE
          Config.ADAPTIVE_UPDATE_FREQUENCY Config.ADAPTIVE_ALPHA
          st name e).db = st.db ∧
      (Main.update_adaptive_embedding Config.ENABLE_ADAPTIVE_UPDATE
          Config.ADAPTIVE_UPDATE_FREQUENCY Config.ADAPTIVE_ALPHA
          st name e).index = st.index ∧
      (Main.update_adaptive_embedding Config.ENABLE_ADAPTIVE_UPDATE
          Config.ADAPTIVE_UPDATE_FREQUENCY Config.ADAPTIVE_ALPHA
          st name e).counts name = st.counts name + 1) ∧
    ((st.counts name + 1) % Config.ADAPTIVE_UPDATE_FREQUENCY = 0 →
      (Main.update_adaptive_embedding Config.ENABLE_ADAPTIVE_UPDATE
          Config.ADAPTIVE_UPDATE_FREQUENCY Config.ADAPTIVE_ALPHA
          st name e).cache name =
        some (Main.normalizeNoGuard
          (Main.blend Config.ADAPTIVE_ALPHA old e)) ∧
      (FaceUtils.norm (Main.blend Config.ADAPTIVE_ALPHA old e) ≠ 0 →
        FaceUtils.norm (Main.normalizeNoGuard
          (Main.blend Config.ADAPTIVE_ALPHA old e)) = 1) ∧
      ((st.db name).isSome →
        (Main.update_adaptive_embedding Config.ENABLE_ADAPTIVE_UPDATE
            Config.ADAPTIVE_UPDATE_FREQUENCY Config.ADAPTIVE_ALPHA
            st name e).db name =
          some (Main.normalizeNoGuard
            (Main.blend Config.ADAPTIVE_ALPHA old e))) ∧
      (st.useFaiss = true →
        (Main.update_adaptive_embedding Config.ENABLE_ADAPTIVE_UPDATE
            Config.ADAPTIVE_UPDATE_FREQUENCY Config.ADAPTIVE_ALPHA
            st name e).index =
          (SearchIndex.update_embedding st.index name
            (Main.normalizeNoGuard
              (Main.blend Config.ADAPTIVE_ALPHA old e))).1) ∧
      (Main.update_adaptive_embedding Config.ENABLE_ADAPTIVE_UPDATE
          Config.ADAPTIVE_UPDATE_FREQUENCY Config.ADAPTIVE_ALPHA
          st name e).counts name = st.counts name + 1) := by
  constructor
  · intro hmod
    rw [Main.update_adaptive_embedding,
      if_neg (by simp [Config.ENABLE_ADAPTIVE_UPDATE]), if_pos hmod]
    exact ⟨rfl, rfl, rfl, by simp⟩
  · intro hmod
    rw [Main.update_adaptive_embedding,
      if_neg (by simp [Config.ENABLE_ADAPTIVE_UPDATE]),
      if_neg (by simp [hmod]), hcache]
    dsimp only
    rw [if_pos hlen]
    refine ⟨by simp, ?_, ?_, ?_, by simp⟩
    · intro hnz
      exact FaceUtils.norm_map_div_norm _ hnz
    · intro hsome
      simp [hsome]
    · intro hf
      simp [hf]

/-- C5 witness: identity `a` has been recognized 9 times; the 10th
recognition with observed vector `[1,0]` (equal to the stored one)
triggers the update, the blended renormalized vector is `[1,0]` itself,
and it is written to the cache. -/
theorem C5_witness :
    ((⟨fun _ => 9,
        fun n => if n = "a" then some [(1 : ℝ), 0] else none,
        fun n => if n = "a" then some [(1 : ℝ), 0] else none,
        SearchIndex.initState 512, false⟩ :
        Main.AdaptState).cache "a" = some [(1 : ℝ), 0]) ∧
    (((⟨fun _ => 9,
        fun n => if n = "a" then some [(1 : ℝ), 0] else none,
        fun n => if n = "a" then some [(1 : ℝ), 0] else none,
        SearchIndex.initState 512, false⟩ :
        Main.AdaptState).counts "a" + 1) %
      Config.ADAPTIVE_UPDATE_FREQUENCY = 0) ∧
    ((Main.update_adaptive_embedding Config.ENABLE_ADAPTIVE_UPDATE
        Config.ADAPTIVE_UPDATE_FREQUENCY Config.ADAPTIVE_ALPHA
        (⟨fun _ => 9,
          fun n => if n = "a" then some [(1 : ℝ), 0] else none,
          fun n => if n = "a" then some [(1 : ℝ), 0] else none,
          SearchIndex.initState 512, false⟩ : Main.AdaptState)
        "a" [(1 : ℝ), 0]).cache "a" =
      some (Main.normalizeNoGuard
        (Main.blend Config.ADAPTIVE_ALPHA [(1 : ℝ), 0] [(1 : ℝ), 0]))) ∧
    Main.normalizeNoGuard
        (Main.blend Config.ADAPTIVE_ALPHA [(1 : ℝ), 0] [(1 : ℝ), 0]) =
      [(1 : ℝ), 0] := by
  have hblend : Main.blend Config.ADAPTIVE_ALPHA [(1 : ℝ), 0]
      [(1 : ℝ), 0] = [(1 : ℝ), 0] := by
    simp [Main.blend, Config.ADAPTIVE_ALPHA]
  have hnng : Main.normalizeNoGuard
      (Main.blend Config.ADAPTIVE_ALPHA [(1 : ℝ), 0] [(1 : ℝ), 0]) =
      [(1 : ℝ), 0] := by
    rw [hblend]
    show [(1 : ℝ), 0].map (· / FaceUtils.norm [(1 : ℝ), 0]) = _
    rw [FaceUtils.norm_one_zero]
    norm_num
  have hmod : ((9 : ℕ) + 1) % Config.ADAPTIVE_UPDATE_FREQUENCY = 0 := by
    norm_num [Config.ADAPTIVE_UPDATE_FREQUENCY]
  exact ⟨by norm_num,
    hmod,
    ((C5_adaptive _ "a" [(1 : ℝ), 0] [(1 : ℝ), 0] (by norm_num)
      rfl).2 hmod).1,
    hnng⟩
